import Mathlib

/-!
Verification of the dirty-tracking entity core of a DynamoDB ORM
(src/entity.ts: defineEntity, wrapProxy, updateDepsAttrs,
calculateUpdateData), as a shallow embedding in Lean.

Records are JS-like values; tracked records carry the hidden
metadata (changes map and reverse dependency index) that the source
attaches under a non-enumerable symbol key.  Mutations through the
proxy layer are modelled as explicit operations taking the property
path; the proxy set/deleteProperty traps are mirrored step by step.

Modelling scope notes (each marked at the definition it concerns):
- property names are strings; the metadata symbol key is not a string
  and is therefore unreachable from the modelled mutations, as in JS;
- array properties other than canonical numeric indices and length
  are not modelled (no claim touches them);
- computed getters are total Lean functions over the raw field list,
  mirroring getter.get(target); claims only use pure, non-throwing
  getters, which the spec also assumes.
-/

namespace DynORM

/-- JS-like runtime values.  The containers obj and arr carry a proxy
marker: none means a raw (unwrapped) container, some k means the
container is a wrapProxy proxy whose closure captured parentKey = k.
This mirrors the source, where only containers reached by wrapProxy at
construction time have mutation traps, and each trap remembers the
top-level key it was created under. -/
inductive Val where
  | undef : Val
  | nullv : Val
  | boolv (b : Bool) : Val
  | num (n : Int) : Val
  | str (s : String) : Val
  | date (ms : Int) : Val
  | obj (pk : Option String) (fields : List (String × Val)) : Val
  | arr (pk : Option String) (elems : List Val) : Val

instance : Inhabited Val := ⟨Val.undef⟩

abbrev Fields := List (String × Val)

/-- First-match association lookup; mirrors JS property access on an
object (an object has at most one slot per key, so first = only). -/
def lookupA {α : Type} : List (String × α) → String → Option α
  | [], _ => none
  | (k, v) :: rest, key => if k = key then some v else lookupA rest key

/-- JS property assignment on an object: overwrite the first matching
key in place, or append a new entry at the end (JS objects keep one
slot per key; new keys go last in insertion order). -/
def updAssoc {α : Type} : List (String × α) → String → α → List (String × α)
  | [], key, v => [(key, v)]
  | (k, w) :: rest, key, v =>
      if k = key then (key, v) :: rest else (k, w) :: updAssoc rest key v

/-- JS `delete obj[key]`: drop the slot if present (at most one). -/
def delAssoc {α : Type} : List (String × α) → String → List (String × α)
  | [], _ => []
  | (k, w) :: rest, key => if k = key then rest else (k, w) :: delAssoc rest key

/-- Drop every entry whose key is in ks. -/
def removeKeys (ks : List String) : Fields → Fields
  | [] => []
  | (k, v) :: rest =>
      if k ∈ ks then removeKeys ks rest else (k, v) :: removeKeys ks rest

/-- JS object spread: the literal with base entries first and ...data
last keeps base key positions but takes the overriding value from data
when present; data keys not in base are appended in data order. -/
def spreadMerge (base data : Fields) : Fields :=
  (base.map (fun p => (p.1, (lookupA data p.1).getD p.2))) ++
    data.filter (fun p => !((base.map Prod.fst).contains p.1))

def Val.isUndef : Val → Bool
  | .undef => true
  | _ => false

/-- typeof v is object, v is not null, and v is not a Date:
the condition under which the object branch of wrapProxy recurses. -/
def isWrappableInObj : Val → Bool
  | .obj _ _ => true
  | .arr _ _ => true
  | _ => false

/-- typeof v is object and v is not null: the condition under which
the array branch of wrapProxy recurses (it does not exclude Dates;
wrapProxy on a Date leaves it a Date-shaped leaf, and no modelled
mutation goes through a Date, so the proxy shell is inert here). -/
def isObjectLike : Val → Bool
  | .obj _ _ => true
  | .arr _ _ => true
  | .date _ => true
  | _ => false

mutual
/-- wrapProxy(value, metaData, parentKey) for a nested value: returns
the proxied value.  The proxy itself records nothing at wrap time (the
construction-time writes in the source happen on the raw target
before any proxy exists), so this is a pure transformation and the
metadata argument of the source does not appear. -/
def wrapProxy (parentKey : String) : Val → Val
  | .obj _ fields => .obj (some parentKey) (wrapFields parentKey fields)
  | .arr _ elems => .arr (some parentKey) (wrapElems parentKey elems)
  | v => v

/-- The object branch of wrapProxy: wrap each enumerable own entry
whose value is an object and not null and not a Date,
passing parentKey down (here parentKey is already set, so the
`parentKey ? parentKey : key` of the source is parentKey). -/
def wrapFields (parentKey : String) : List (String × Val) → List (String × Val)
  | [] => []
  | (k, v) :: rest =>
      (k, if isWrappableInObj v then wrapProxy parentKey v else v) ::
        wrapFields parentKey rest

/-- The array branch of wrapProxy: map each element, wrapping those
that are objects and not null. -/
def wrapElems (parentKey : String) : List Val → List Val
  | [] => []
  | v :: rest =>
      (if isObjectLike v then wrapProxy parentKey v else v) :: wrapElems parentKey rest
end

/-- The top-level wrapProxy call on the record: its parentKey argument
is absent, so each container child is wrapped with its own key as the
captured parent key (`parentKey ? parentKey : key` with parentKey
undefined). -/
def wrapTopFields : Fields → Fields
  | [] => []
  | (k, v) :: rest =>
      (k, if isWrappableInObj v then wrapProxy k v else v) :: wrapTopFields rest

/-- enum ValueInfo of the source. -/
inductive ValueInfo where
  | New : ValueInfo
  | Updated : ValueInfo
  | Removed : ValueInfo
  deriving DecidableEq

/-- The hidden per-record tracking metadata. -/
structure EntityMetada where
  changes : List (String × ValueInfo)
  attrDeps : List (String × List String)
  deriving DecidableEq

instance : Inhabited EntityMetada := ⟨⟨[], []⟩⟩

/-- A computed-attribute definition; get receives the raw target
fields, mirroring getter.get(target). -/
structure ComputedGetter where
  dependsOn : List String
  get : Fields → Val

instance : Inhabited ComputedGetter := ⟨⟨[], fun _ => Val.undef⟩⟩

structure EntityConfig where
  name : String
  ttl : Option String
  computed : List (String × ComputedGetter)

/-- A tracked record: the raw target data fields (computed keys are
held separately because defineProperty replaces any same-named data
slot with an accessor), the computed accessors, and the metadata
attached under the hidden symbol key. -/
structure TrackedRecord where
  fields : Fields
  computed : List (String × ComputedGetter)
  meta : EntityMetada

instance : Inhabited TrackedRecord := ⟨⟨[], [], ⟨[], []⟩⟩⟩

/-- config.ttl = config.ttl || defaultName: an absent or empty (falsy)
ttl name falls back to the reserved default. -/
def ttlKeyOf (config : EntityConfig) : String :=
  match config.ttl with
  | some t => if t = "" then "_ttl" else t
  | none => "_ttl"

/-- The built-in TTL getter: entity._expires ? getTime() : undefined.
Only a Date value is truthy-and-well-typed here; claims never store a
non-Date truthy value in _expires (doing so would throw in JS). -/
def ttlGetter : ComputedGetter :=
  { dependsOn := ["_expires"]
    get := fun fs =>
      match lookupA fs "_expires" with
      | some (.date ms) => .num ms
      | _ => .undef }

/-- The computed map of defineEntity: the schema computed entries with
the TTL entry spread last, overriding a same-named schema entry in
place (JS spread keeps the original key position). -/
def computedOf (config : EntityConfig) : List (String × ComputedGetter) :=
  updAssoc config.computed (ttlKeyOf config) ttlGetter

/-- Append computed key c to the bucket of source attribute d in the
reversed dependency index. -/
def addDep (deps : List (String × List String)) (d : String) (c : String) :
    List (String × List String) :=
  match lookupA deps d with
  | some l => updAssoc deps d (l ++ [c])
  | none => deps ++ [(d, [c])]

/-- Build attrDeps: for every computed entry with a nonempty dependsOn
list, register the computed key under each of its sources, in order. -/
def buildDeps (computed : List (String × ComputedGetter)) :
    List (String × List String) :=
  computed.foldl
    (fun acc p =>
      if p.2.dependsOn.length > 0 then
        p.2.dependsOn.foldl (fun a d => addDep a d p.1) acc
      else acc)
    []

/-- updateDepsAttrs of the source: if attrDeps has a bucket for prop
(a present bucket is truthy even when empty), mark every computed
attribute in it Updated in changes. -/
def updateDepsAttrs (prop : String) (meta : EntityMetada) : EntityMetada :=
  match lookupA meta.attrDeps prop with
  | some deps =>
      { meta with
        changes := deps.foldl (fun ch d => updAssoc ch d ValueInfo.Updated) meta.changes }
  | none => meta

/-- The reserved attributes synthesized by the entity constructor;
the two Date constructions are modelled with one clock reading. -/
def reservedFields (name : String) (now : Int) : Fields :=
  [("_created", Val.date now), ("_updated", Val.date now), ("_type", Val.str name)]

/-- entityConstructor of defineEntity.  The target literal spreads
...data last, so caller-supplied values overwrite the synthesized
reserved attributes.  defineProperty then replaces any data slot named
like a computed key with an accessor (hence removeKeys).  Finally
wrapProxy(target, metaData) wraps the result; its construction loop
reads a snapshot of Object.entries, which includes the computed
accessors, and assigning the wrapped child back into a getter-only
slot would throw, so a computed value that is a container is a
construction-time TypeError. -/
def entityConstructor (config : EntityConfig) (data : Fields) (now : Int) :
    Except String TrackedRecord :=
  let computed := computedOf config
  let merged := spreadMerge (reservedFields config.name now) data
  let dataFields := removeKeys (computed.map Prod.fst) merged
  if computed.any (fun p => isWrappableInObj (p.2.get dataFields)) then
    .error "TypeError: cannot assign a wrapped value to a getter-only property"
  else
    .ok { fields := wrapTopFields dataFields
          computed := computed
          meta := { changes := [], attrDeps := buildDeps computed } }

/-- target[prop] !== undefined before the write: an own slot holding a
value other than undefined.  Absent slots read as undefined. -/
def prevDefined (fields : Fields) (prop : String) : Bool :=
  !((lookupA fields prop).getD Val.undef).isUndef

def decDigit? (c : Char) : Option Nat :=
  if 48 ≤ c.toNat && c.toNat ≤ 57 then some (c.toNat - 48) else none

def parseIndexGo : List Char → Nat → Option Nat
  | [], n => some n
  | c :: rest, n =>
      match decDigit? c with
      | some d => parseIndexGo rest (n * 10 + d)
      | none => none

/-- A canonical JS array index key: a decimal numeral without leading
zeros.  Other string keys on an array are ordinary properties, which
are outside the modelled scope. -/
def parseIndex (s : String) : Option Nat :=
  match s.data with
  | [] => none
  | [c] => decDigit? c
  | c :: rest =>
      match decDigit? c with
      | some 0 => none
      | some d => parseIndexGo rest d
      | none => none

/-- JS array element write at index i: replace in range, pad with
undefined beyond the end (holes read back as undefined). -/
def setIdx : List Val → Nat → Val → List Val
  | [], 0, v => [v]
  | [], n + 1, v => Val.undef :: setIdx [] n v
  | _ :: rest, 0, v => v :: rest
  | w :: rest, n + 1, v => w :: setIdx rest n v

/-- JS array length assignment: truncate or pad with undefined. -/
def resizeArr (elems : List Val) (n : Nat) : List Val :=
  if n ≤ elems.length then elems.take n
  else elems ++ List.replicate (n - elems.length) Val.undef

/-- What the innermost set trap saw: the captured parentKey, the
property name at the mutation site, and whether the write was the
set-to-undefined-over-a-present-value case. -/
structure SetTrap where
  parentKey : String
  prop : String
  setUndef : Bool

/-- What the innermost deleteProperty trap saw. -/
structure DelTrap where
  parentKey : String
  prop : String

/-- Perform record.top.k1...kn.prop = v below the top level: navigate
the stored values (proxy get traps are transparent), then apply the
set at the innermost container.  Returns the updated container value
and, when that innermost container is a proxy AND the write is not an
array length adjustment, the trap observation; none overall is a
thrown TypeError (navigation through a missing or non-container
value, an invalid array index, or an invalid length).  Array
properties other than canonical indices and length are outside the
modelled scope. -/
def setNest : Val → List String → Val → Option (Val × Option SetTrap)
  | cv, [prop], v =>
    match cv with
    | .obj pk fields =>
        let s2u := v.isUndef && prevDefined fields prop
        some (.obj pk (updAssoc fields prop v), pk.map (fun k => ⟨k, prop, s2u⟩))
    | .arr pk elems =>
        if prop = "length" then
          match v with
          | .num n =>
              if n < 0 then none
              else some (.arr pk (resizeArr elems n.toNat), none)
          | _ => none
        else
          match parseIndex prop with
          | some i =>
              let s2u := v.isUndef && !((elems.getD i Val.undef).isUndef)
              some (.arr pk (setIdx elems i v), pk.map (fun k => ⟨k, prop, s2u⟩))
          | none => none
    | _ => none
  | cv, key :: rest, v =>
    match cv with
    | .obj pk fields =>
        match lookupA fields key with
        | some inner =>
            match setNest inner rest v with
            | some (inner2, trap) => some (.obj pk (updAssoc fields key inner2), trap)
            | none => none
        | none => none
    | .arr pk elems =>
        match parseIndex key with
        | some i =>
            match setNest (elems.getD i Val.undef) rest v with
            | some (inner2, trap) =>
                if i < elems.length then some (.arr pk (setIdx elems i inner2), trap)
                else none
            | none => none
        | none => none
    | _ => none
  | _, [], _ => none

/-- Perform delete record.top.k1...kn.prop below the top level.
Reflect.deleteProperty on a data slot succeeds even when the slot is
absent; deleting an array element leaves a hole that reads back as
undefined; deleting length is a TypeError. -/
def delNest : Val → List String → Option (Val × Option DelTrap)
  | cv, [prop] =>
    match cv with
    | .obj pk fields =>
        some (.obj pk (delAssoc fields prop), pk.map (fun k => ⟨k, prop⟩))
    | .arr pk elems =>
        if prop = "length" then none
        else
          match parseIndex prop with
          | some i =>
              let elems2 := if i < elems.length then setIdx elems i Val.undef else elems
              some (.arr pk elems2, pk.map (fun k => ⟨k, prop⟩))
          | none => none
    | _ => none
  | cv, key :: rest =>
    match cv with
    | .obj pk fields =>
        match lookupA fields key with
        | some inner =>
            match delNest inner rest with
            | some (inner2, trap) => some (.obj pk (updAssoc fields key inner2), trap)
            | none => none
        | none => none
    | .arr pk elems =>
        match parseIndex key with
        | some i =>
            match delNest (elems.getD i Val.undef) rest with
            | some (inner2, trap) =>
                if i < elems.length then some (.arr pk (setIdx elems i inner2), trap)
                else none
            | none => none
        | none => none
    | _ => none
  | _, [] => none

/-- Result of a mutation attempt: the record afterwards and whether a
TypeError was thrown (strict-mode assignment or delete whose trap
returned false).  A throw happens before any metadata update, so the
state in that case is the untouched input record. -/
structure MutOut where
  state : TrackedRecord
  thrown : Bool

/-- The common tail of both traps: store the new fields, write
changes[chKey] = vi, then updateDepsAttrs(prop) - note the dependency
lookup uses the mutation-site property name prop, not chKey. -/
def recordChange (r : TrackedRecord) (fields2 : Fields) (chKey : String)
    (vi : ValueInfo) (prop : String) : TrackedRecord :=
  { fields := fields2
    computed := r.computed
    meta := updateDepsAttrs prop
      { changes := updAssoc r.meta.changes chKey vi, attrDeps := r.meta.attrDeps } }

/-- record.path = v through the proxies.  At the top level the record
proxy has no parentKey, so changes[prop] is written; a computed key is
a getter-only slot, Reflect.set returns false and the strict-mode
assignment throws with no metadata update.  Below the top level the
trap of the innermost proxied container fires with its captured
parentKey.  Navigation starting at a computed key is modelled as a
throw (the built-in getters used by the claims return non-containers,
on which JS property assignment throws). -/
def setProp (r : TrackedRecord) (path : List String) (v : Val) : MutOut :=
  match path with
  | [] => ⟨r, true⟩
  | [prop] =>
      if (lookupA r.computed prop).isSome then ⟨r, true⟩
      else
        let s2u := v.isUndef && prevDefined r.fields prop
        ⟨recordChange r (updAssoc r.fields prop v) prop
          (if s2u then ValueInfo.Removed else ValueInfo.Updated) prop, false⟩
  | top :: rest =>
      match lookupA r.fields top with
      | none => ⟨r, true⟩
      | some cv =>
          match setNest cv rest v with
          | none => ⟨r, true⟩
          | some (cv2, none) => ⟨{ r with fields := updAssoc r.fields top cv2 }, false⟩
          | some (cv2, some t) =>
              ⟨recordChange r (updAssoc r.fields top cv2) t.parentKey
                (if t.setUndef then ValueInfo.Removed else ValueInfo.Updated) t.prop, false⟩

/-- delete record.path through the proxies.  At the top level a
computed key is non-configurable, the trap returns false and the
strict-mode delete throws; otherwise changes[prop] = Removed.  Below
the top level the innermost trap fires and, having a parentKey,
writes changes[parentKey] = Updated.  Both then run
updateDepsAttrs(prop). -/
def deleteProp (r : TrackedRecord) (path : List String) : MutOut :=
  match path with
  | [] => ⟨r, true⟩
  | [prop] =>
      if (lookupA r.computed prop).isSome then ⟨r, true⟩
      else ⟨recordChange r (delAssoc r.fields prop) prop ValueInfo.Removed prop, false⟩
  | top :: rest =>
      match lookupA r.fields top with
      | none => ⟨r, true⟩
      | some cv =>
          match delNest cv rest with
          | none => ⟨r, true⟩
          | some (cv2, none) => ⟨{ r with fields := updAssoc r.fields top cv2 }, false⟩
          | some (cv2, some t) =>
              ⟨recordChange r (updAssoc r.fields top cv2) t.parentKey
                ValueInfo.Updated t.prop, false⟩

/-- record.hasOwnProperty(attr): data slots and computed accessors are
own properties (the metadata key is a symbol, never a string). -/
def hasOwnB (r : TrackedRecord) (attr : String) : Bool :=
  (lookupA r.fields attr).isSome || (lookupA r.computed attr).isSome

/-- record[attr]: a computed accessor evaluates its getter on the raw
target fields; otherwise the stored slot, or undefined. -/
def readAttr (r : TrackedRecord) (attr : String) : Val :=
  match lookupA r.computed attr with
  | some g => g.get r.fields
  | none => (lookupA r.fields attr).getD Val.undef

structure UpdateData where
  set : Fields
  remove : List String

/-- The body of calculateUpdateData once metadata is present: entries
of changes marked Updated that are still own properties, each paired
with its current live value; and the names of entries marked
Removed. -/
def calcUpdate (r : TrackedRecord) : UpdateData :=
  { set :=
      (r.meta.changes.filter
          (fun p => decide (p.2 = ValueInfo.Updated) && hasOwnB r p.1)).map
        (fun p => (p.1, readAttr r p.1))
    remove :=
      (r.meta.changes.filter (fun p => decide (p.2 = ValueInfo.Removed))).map Prod.fst }

/-- An argument handed to calculateUpdateData: either a plain value
with no hidden metadata attribute, or a factory-produced tracked
record. -/
inductive JsInput where
  | plain (v : Val)
  | tracked (r : TrackedRecord)

/-- calculateUpdateData: a missing metadata attribute is an immediate
error; otherwise reduce the changes map. -/
def calculateUpdateData : JsInput → Except String UpdateData
  | .plain _ => .error "Provided entity does not have entity metadata attribute"
  | .tracked r => .ok (calcUpdate r)

/-! ### Allocation layer

The metadata object is created fresh inside each entityConstructor
call and shared only through the closures of that call.  To make this
freshness provable rather than assumed, records here hold an index
into a world of metadata objects, constructors allocate at the end of
the world, and mutations write back only at their own index. -/

structure WRecord where
  fields : Fields
  computed : List (String × ComputedGetter)
  ref : Nat

instance : Inhabited WRecord := ⟨⟨[], [], 0⟩⟩

abbrev World := List EntityMetada

def getMeta (w : World) (i : Nat) : EntityMetada := (w.get? i).getD ⟨[], []⟩

def putMeta : World → Nat → EntityMetada → World
  | [], _, _ => []
  | _ :: rest, 0, m => m :: rest
  | x :: rest, n + 1, m => x :: putMeta rest n m

/-- entityConstructor with the metadata allocation made explicit. -/
def wConstruct (config : EntityConfig) (data : Fields) (now : Int) (w : World) :
    Except String (World × WRecord) :=
  match entityConstructor config data now with
  | .error e => .error e
  | .ok r => .ok (w ++ [r.meta], { fields := r.fields, computed := r.computed, ref := w.length })

/-- View a world record as a TrackedRecord by dereferencing its
metadata. -/
def toTR (w : World) (r : WRecord) : TrackedRecord :=
  ⟨r.fields, r.computed, getMeta w r.ref⟩

inductive Mut where
  | setm (path : List String) (v : Val)
  | delm (path : List String)

/-- Apply one mutation to a record in a world: run the proxy-level
operation and write the metadata back at the record's own index. -/
def applyMut (w : World) (r : WRecord) : Mut → World × WRecord
  | .setm path v =>
      let out := setProp (toTR w r) path v
      (putMeta w r.ref out.state.meta, { r with fields := out.state.fields })
  | .delm path =>
      let out := deleteProp (toTR w r) path
      (putMeta w r.ref out.state.meta, { r with fields := out.state.fields })

def applyMuts : World → WRecord → List Mut → World × WRecord
  | w, r, [] => (w, r)
  | w, r, m :: rest => applyMuts (applyMut w r m).1 (applyMut w r m).2 rest


def keysOf {α : Type} (l : List (String × α)) : List String := l.map Prod.fst

/-- The dependency bucket consulted by updateDepsAttrs. -/
def depsOf (meta : EntityMetada) (prop : String) : List String :=
  (lookupA meta.attrDeps prop).getD []

/-- Invariant established by construction: every attribute listed in a
dependency bucket is a computed key. -/
def DepsComputed (r : TrackedRecord) : Prop :=
  ∀ p ∈ r.meta.attrDeps, ∀ c ∈ p.2, (lookupA r.computed c).isSome = true

instance decDepsComputed (r : TrackedRecord) : Decidable (DepsComputed r) :=
  inferInstanceAs (Decidable (∀ p ∈ r.meta.attrDeps, ∀ c ∈ p.2,
    (lookupA r.computed c).isSome = true))

def demoCfg : EntityConfig :=
  ⟨"TEST", none,
    [("pk", ⟨["login"], fun fs =>
        match lookupA fs "login" with
        | some (.str s) => .str ("TEST#" ++ s)
        | _ => .undef⟩)]⟩

def demoData : Fields :=
  [("name", .str "Damian"), ("login", .str "damsos"),
   ("address", .obj none [("city", .str "Lisbon"), ("street", .str "Avenida")]),
   ("favColors", .arr none [.str "black", .str "red"])]

def demoRec : TrackedRecord := (entityConstructor demoCfg demoData 5).toOption.getD default

def c1cfg : EntityConfig := ⟨"T", none, []⟩

def c1data : Fields := [("_created", .str "HACK"), ("_type", .str "EVIL")]

def c1rec : TrackedRecord := (entityConstructor c1cfg c1data 0).toOption.getD default

def c2cfg : EntityConfig := ⟨"T", none, [("cpk", ⟨["address"], fun _ => .str "CPK"⟩)]⟩

def c2data : Fields := [("address", .obj none [("city", .str "Lisbon")])]

def c2rec : TrackedRecord := (entityConstructor c2cfg c2data 0).toOption.getD default

def c2mut : MutOut := setProp c2rec ["address", "city"] (.str "Belem")

def c9cfgA : EntityConfig := ⟨"A", none, []⟩

def c9cfgB : EntityConfig := ⟨"B", none, []⟩

def c9d1 : Fields := [("a", .num 1)]

def c9d2 : Fields := [("b", .num 7)]

def c9pair1 : World × WRecord := (wConstruct c9cfgA c9d1 0 []).toOption.getD ([], default)

def c9pair2 : World × WRecord :=
  (wConstruct c9cfgB c9d2 0 c9pair1.1).toOption.getD ([], default)

/-! ### Lemmas and claim theorems -/

theorem keysOf_nil {α : Type} : keysOf ([] : List (String × α)) = [] := rfl

theorem keysOf_cons {α : Type} (p : String × α) (l : List (String × α)) :
    keysOf (p :: l) = p.1 :: keysOf l := rfl

theorem lookupA_updAssoc_self {α : Type} (l : List (String × α)) (k : String) (v : α) :
    lookupA (updAssoc l k v) k = some v := by
  induction l with
  | nil => simp [updAssoc, lookupA]
  | cons p rest ih =>
      obtain ⟨k1, w⟩ := p
      by_cases h : k1 = k
      · subst h
        simp [updAssoc, lookupA]
      · simp [updAssoc, lookupA, h, ih]

theorem lookupA_updAssoc_ne {α : Type} (l : List (String × α)) (k j : String) (v : α)
    (h : j ≠ k) : lookupA (updAssoc l k v) j = lookupA l j := by
  induction l with
  | nil => simp [updAssoc, lookupA, Ne.symm h]
  | cons p rest ih =>
      obtain ⟨k1, w⟩ := p
      by_cases h1 : k1 = k
      · subst h1
        simp [updAssoc, lookupA, Ne.symm h]
      · by_cases h2 : k1 = j <;> simp [updAssoc, lookupA, h1, h2, h, ih]

theorem mem_keysOf_updAssoc {α : Type} {l : List (String × α)} {k x : String} {v : α}
    (h : x ∈ keysOf (updAssoc l k v)) : x ∈ keysOf l ∨ x = k := by
  induction l with
  | nil =>
      rw [show updAssoc ([] : List (String × α)) k v = [(k, v)] from rfl, keysOf_cons] at h
      rcases List.mem_cons.mp h with h | h
      · exact Or.inr h
      · simp [keysOf] at h
  | cons p rest ih =>
      obtain ⟨k1, w⟩ := p
      by_cases h1 : k1 = k
      · subst h1
        rw [show updAssoc ((k1, w) :: rest) k1 v = (k1, v) :: rest from by
              simp [updAssoc], keysOf_cons] at h
        rw [keysOf_cons]
        rcases List.mem_cons.mp h with h | h
        · exact Or.inr h
        · exact Or.inl (List.mem_cons_of_mem _ h)
      · rw [show updAssoc ((k1, w) :: rest) k v = (k1, w) :: updAssoc rest k v from by
              simp [updAssoc, h1], keysOf_cons] at h
        rw [keysOf_cons]
        rcases List.mem_cons.mp h with h | h
        · exact Or.inl (List.mem_cons.mpr (Or.inl h))
        · rcases ih h with h2 | h2
          · exact Or.inl (List.mem_cons_of_mem _ h2)
          · exact Or.inr h2

theorem nodup_keysOf_updAssoc {α : Type} {l : List (String × α)} (k : String) (v : α)
    (h : (keysOf l).Nodup) : (keysOf (updAssoc l k v)).Nodup := by
  induction l with
  | nil => simp [updAssoc, keysOf]
  | cons p rest ih =>
      obtain ⟨k1, w⟩ := p
      rw [keysOf_cons, List.nodup_cons] at h
      by_cases h1 : k1 = k
      · subst h1
        simp [updAssoc, keysOf_cons, List.nodup_cons]
        exact h
      · rw [updAssoc]
        simp only [h1, if_false, keysOf_cons, List.nodup_cons]
        refine ⟨fun hm => ?_, ih h.2⟩
        rcases mem_keysOf_updAssoc hm with h2 | h2
        · exact h.1 h2
        · exact h1 h2

theorem lookupA_eq_none_of_not_mem {α : Type} {l : List (String × α)} {a : String}
    (h : a ∉ keysOf l) : lookupA l a = none := by
  induction l with
  | nil => rfl
  | cons p rest ih =>
      obtain ⟨k1, w⟩ := p
      rw [keysOf_cons, List.mem_cons] at h
      push_neg at h
      simp [lookupA, Ne.symm h.1, ih h.2]

theorem mem_of_lookupA {α : Type} {l : List (String × α)} {a : String} {v : α}
    (h : lookupA l a = some v) : (a, v) ∈ l := by
  induction l with
  | nil => simp [lookupA] at h
  | cons p rest ih =>
      obtain ⟨k1, w⟩ := p
      by_cases h1 : k1 = a
      · subst h1
        simp [lookupA] at h
        simp [h]
      · simp [lookupA, h1] at h
        simp [ih h]

theorem lookupA_of_mem_nodup {α : Type} {l : List (String × α)} {a : String} {v : α}
    (hnd : (keysOf l).Nodup) (h : (a, v) ∈ l) : lookupA l a = some v := by
  induction l with
  | nil => simp at h
  | cons p rest ih =>
      obtain ⟨k1, w⟩ := p
      rw [keysOf_cons, List.nodup_cons] at hnd
      rcases List.mem_cons.mp h with h1 | h1
      · rw [Prod.mk.injEq] at h1
        obtain ⟨ha, hv⟩ := h1
        simp [lookupA, ha.symm, hv]
      · have ha : k1 ≠ a := by
          intro hk
          subst hk
          exact hnd.1 (by simp [keysOf, List.mem_map]; exact ⟨v, h1⟩)
        simp [lookupA, ha, ih hnd.2 h1]

theorem lookupA_foldl_updU (deps : List String) (ch : List (String × ValueInfo))
    (c : String) :
    lookupA (deps.foldl (fun a d => updAssoc a d ValueInfo.Updated) ch) c =
      if c ∈ deps then some ValueInfo.Updated else lookupA ch c := by
  induction deps generalizing ch with
  | nil => simp
  | cons d rest ih =>
      simp only [List.foldl_cons]
      rw [ih]
      by_cases h1 : c ∈ rest
      · simp [h1, List.mem_cons]
      · by_cases h2 : c = d
        · subst h2
          simp [h1, lookupA_updAssoc_self, List.mem_cons]
        · simp [h1, h2, lookupA_updAssoc_ne _ _ _ _ h2, List.mem_cons]

theorem nodup_keysOf_foldl_updU (deps : List String) (ch : List (String × ValueInfo))
    (h : (keysOf ch).Nodup) :
    (keysOf (deps.foldl (fun a d => updAssoc a d ValueInfo.Updated) ch)).Nodup := by
  induction deps generalizing ch with
  | nil => exact h
  | cons d rest ih =>
      simp only [List.foldl_cons]
      exact ih _ (nodup_keysOf_updAssoc _ _ h)

theorem updateDepsAttrs_attrDeps (prop : String) (meta : EntityMetada) :
    (updateDepsAttrs prop meta).attrDeps = meta.attrDeps := by
  unfold updateDepsAttrs
  cases lookupA meta.attrDeps prop <;> rfl

theorem lookupA_updateDepsAttrs (prop : String) (meta : EntityMetada) (x : String) :
    lookupA (updateDepsAttrs prop meta).changes x =
      if x ∈ depsOf meta prop then some ValueInfo.Updated else lookupA meta.changes x := by
  unfold updateDepsAttrs depsOf
  cases h : lookupA meta.attrDeps prop with
  | none => simp
  | some deps => simp [lookupA_foldl_updU]

theorem nodup_updateDepsAttrs (prop : String) (meta : EntityMetada)
    (h : (keysOf meta.changes).Nodup) :
    (keysOf (updateDepsAttrs prop meta).changes).Nodup := by
  unfold updateDepsAttrs
  cases lookupA meta.attrDeps prop with
  | none => exact h
  | some deps => exact nodup_keysOf_foldl_updU _ _ h

theorem recordChange_fields (r : TrackedRecord) (f2 : Fields) (k : String)
    (vi : ValueInfo) (p : String) : (recordChange r f2 k vi p).fields = f2 := rfl

theorem recordChange_computed (r : TrackedRecord) (f2 : Fields) (k : String)
    (vi : ValueInfo) (p : String) : (recordChange r f2 k vi p).computed = r.computed := rfl

theorem recordChange_attrDeps (r : TrackedRecord) (f2 : Fields) (k : String)
    (vi : ValueInfo) (p : String) :
    (recordChange r f2 k vi p).meta.attrDeps = r.meta.attrDeps := by
  simp [recordChange, updateDepsAttrs_attrDeps]

theorem lookupA_recordChange (r : TrackedRecord) (f2 : Fields) (k : String)
    (vi : ValueInfo) (p : String) (x : String) :
    lookupA (recordChange r f2 k vi p).meta.changes x =
      if x ∈ depsOf r.meta p then some ValueInfo.Updated
      else if x = k then some vi
      else lookupA r.meta.changes x := by
  have hm : (recordChange r f2 k vi p).meta =
      updateDepsAttrs p ⟨updAssoc r.meta.changes k vi, r.meta.attrDeps⟩ := rfl
  rw [hm, lookupA_updateDepsAttrs]
  have hd : depsOf ⟨updAssoc r.meta.changes k vi, r.meta.attrDeps⟩ p = depsOf r.meta p := rfl
  rw [hd]
  by_cases hx : x = k
  · subst hx
    simp [lookupA_updAssoc_self]
  · simp [hx, lookupA_updAssoc_ne _ _ _ _ hx]

theorem nodup_recordChange (r : TrackedRecord) (f2 : Fields) (k : String)
    (vi : ValueInfo) (p : String) (h : (keysOf r.meta.changes).Nodup) :
    (keysOf (recordChange r f2 k vi p).meta.changes).Nodup :=
  nodup_updateDepsAttrs _ _ (nodup_keysOf_updAssoc _ _ h)

theorem keysOf_setList_subset (r : TrackedRecord) (ch : List (String × ValueInfo))
    {x : String}
    (h : x ∈ keysOf ((ch.filter
        (fun p => decide (p.2 = ValueInfo.Updated) && hasOwnB r p.1)).map
        (fun p => (p.1, readAttr r p.1)))) : x ∈ keysOf ch := by
  simp only [keysOf, List.mem_map] at h ⊢
  obtain ⟨y, hy, hyx⟩ := h
  obtain ⟨p, hp, hpy⟩ := hy
  refine ⟨p, (List.mem_filter.mp hp).1, ?_⟩
  rw [← hpy] at hyx
  exact hyx

theorem lookupA_setList (r : TrackedRecord) (ch : List (String × ValueInfo))
    (hnd : (keysOf ch).Nodup) (a : String) :
    lookupA ((ch.filter
        (fun p => decide (p.2 = ValueInfo.Updated) && hasOwnB r p.1)).map
        (fun p => (p.1, readAttr r p.1))) a =
      if lookupA ch a = some ValueInfo.Updated ∧ hasOwnB r a = true
      then some (readAttr r a) else none := by
  induction ch with
  | nil => simp [lookupA]
  | cons p rest ih =>
      obtain ⟨k, vi⟩ := p
      rw [keysOf_cons, List.nodup_cons] at hnd
      by_cases ha : k = a
      · subst ha
        by_cases hcase : vi = ValueInfo.Updated ∧ hasOwnB r k = true
        · obtain ⟨h1, h2⟩ := hcase
          subst h1
          simp [List.filter_cons, h2, lookupA]
        · have hpred : (decide (vi = ValueInfo.Updated) && hasOwnB r k) = false := by
            cases hb : hasOwnB r k
            · simp
            · have hv : ¬ vi = ValueInfo.Updated := fun hv => hcase ⟨hv, hb⟩
              simp [hv]
          rw [List.filter_cons, hpred]
          simp only [Bool.false_eq_true, if_false]
          rw [lookupA_eq_none_of_not_mem
            (fun hm => hnd.1 (keysOf_setList_subset r rest hm))]
          have : lookupA ((k, vi) :: rest) k = some vi := by simp [lookupA]
          rw [this]
          by_cases hvi : vi = ValueInfo.Updated
          · subst hvi
            simp only [Option.some.injEq]
            have hb : hasOwnB r k = false := by
              cases hb2 : hasOwnB r k
              · rfl
              · exact absurd ⟨rfl, hb2⟩ hcase
            simp [hb]
          · have hc2 : ¬ (some vi = some ValueInfo.Updated ∧ hasOwnB r k = true) :=
              fun hx => hvi (Option.some.inj hx.1)
            rw [if_neg hc2]
      · have hL : lookupA ((k, vi) :: rest) a = lookupA rest a := by simp [lookupA, ha]
        rw [hL]
        rw [List.filter_cons]
        cases hpred : (decide (vi = ValueInfo.Updated) && hasOwnB r k) with
        | false =>
            simp only [Bool.false_eq_true, if_false]
            exact ih hnd.2
        | true =>
            simp only [if_true]
            rw [List.map_cons]
            have : lookupA (((k, vi).1, readAttr r (k, vi).1) ::
                (rest.filter (fun p => decide (p.2 = ValueInfo.Updated) && hasOwnB r p.1)).map
                  (fun p => (p.1, readAttr r p.1))) a =
              lookupA ((rest.filter (fun p => decide (p.2 = ValueInfo.Updated) && hasOwnB r p.1)).map
                  (fun p => (p.1, readAttr r p.1))) a := by
              simp [lookupA, ha]
            rw [this]
            exact ih hnd.2

theorem lookupA_calcUpdate_set (r : TrackedRecord)
    (hnd : (keysOf r.meta.changes).Nodup) (a : String) :
    lookupA (calcUpdate r).set a =
      if lookupA r.meta.changes a = some ValueInfo.Updated ∧ hasOwnB r a = true
      then some (readAttr r a) else none :=
  lookupA_setList r r.meta.changes hnd a

theorem mem_calcUpdate_remove (r : TrackedRecord)
    (hnd : (keysOf r.meta.changes).Nodup) (a : String) :
    a ∈ (calcUpdate r).remove ↔ lookupA r.meta.changes a = some ValueInfo.Removed := by
  constructor
  · intro h
    simp only [calcUpdate, List.mem_map, List.mem_filter] at h
    obtain ⟨q, ⟨hq, hvi⟩, hqa⟩ := h
    have : q = (a, ValueInfo.Removed) := by
      obtain ⟨q1, q2⟩ := q
      simp at hqa hvi
      simp [hqa, hvi]
    rw [this] at hq
    exact lookupA_of_mem_nodup hnd hq
  · intro h
    simp only [calcUpdate, List.mem_map, List.mem_filter]
    exact ⟨(a, ValueInfo.Removed), ⟨mem_of_lookupA h, by simp⟩, rfl⟩

theorem depsOf_computed {r : TrackedRecord} {prop c : String} (hdc : DepsComputed r)
    (hmem : c ∈ depsOf r.meta prop) : (lookupA r.computed c).isSome = true := by
  unfold depsOf at hmem
  cases h : lookupA r.meta.attrDeps prop with
  | none => rw [h] at hmem; simp at hmem
  | some deps =>
      rw [h] at hmem
      exact hdc (prop, deps) (mem_of_lookupA h) c hmem

theorem not_mem_depsOf {r : TrackedRecord} {prop a : String} (hdc : DepsComputed r)
    (hc : lookupA r.computed a = none) : a ∉ depsOf r.meta prop := by
  intro hm
  have := depsOf_computed hdc hm
  rw [hc] at this
  simp at this

theorem depsComputed_recordChange {r : TrackedRecord} (f2 : Fields) (k : String)
    (vi : ValueInfo) (p : String) (hdc : DepsComputed r) :
    DepsComputed (recordChange r f2 k vi p) := by
  intro q hq c hcq
  rw [recordChange_attrDeps] at hq
  rw [recordChange_computed]
  exact hdc q hq c hcq

theorem setProp_top (r : TrackedRecord) (a : String) (v : Val)
    (hc : lookupA r.computed a = none) :
    setProp r [a] v =
      ⟨recordChange r (updAssoc r.fields a v) a
        (if v.isUndef && prevDefined r.fields a then ValueInfo.Removed else ValueInfo.Updated)
        a, false⟩ := by
  simp [setProp, hc]

theorem deleteProp_top (r : TrackedRecord) (a : String)
    (hc : lookupA r.computed a = none) :
    deleteProp r [a] =
      ⟨recordChange r (delAssoc r.fields a) a ValueInfo.Removed a, false⟩ := by
  simp [deleteProp, hc]

theorem setProp_computed (r : TrackedRecord) (c : String) (v : Val)
    (hc : (lookupA r.computed c).isSome = true) :
    setProp r [c] v = ⟨r, true⟩ := by
  simp [setProp, hc]

theorem setProp_nested (r : TrackedRecord) (top k2 : String) (rest : List String)
    (v : Val) (cv cv2 : Val) (t : SetTrap)
    (hf : lookupA r.fields top = some cv)
    (hn : setNest cv (k2 :: rest) v = some (cv2, some t)) :
    setProp r (top :: k2 :: rest) v =
      ⟨recordChange r (updAssoc r.fields top cv2) t.parentKey
        (if t.setUndef then ValueInfo.Removed else ValueInfo.Updated) t.prop, false⟩ := by
  simp [setProp, hf, hn]

theorem deleteProp_nested (r : TrackedRecord) (top k2 : String) (rest : List String)
    (cv cv2 : Val) (t : DelTrap)
    (hf : lookupA r.fields top = some cv)
    (hn : delNest cv (k2 :: rest) = some (cv2, some t)) :
    deleteProp r (top :: k2 :: rest) =
      ⟨recordChange r (updAssoc r.fields top cv2) t.parentKey
        ValueInfo.Updated t.prop, false⟩ := by
  simp [deleteProp, hf, hn]

/-- C4: calculateUpdateData applied to any value lacking the hidden
tracking-metadata attribute throws an error and never returns a patch,
while applied to any factory-produced tracked record it returns a
patch without throwing. -/
theorem c4_missing_metadata :
    (∀ v : Val, calculateUpdateData (JsInput.plain v) =
        .error "Provided entity does not have entity metadata attribute") ∧
    (∀ r : TrackedRecord, calculateUpdateData (JsInput.tracked r) = .ok (calcUpdate r)) :=
  ⟨fun _ => rfl, fun _ => rfl⟩

/-- C3: an attempted assignment to a computed attribute of a tracked
record (including the built-in TTL attribute) fails with an immediate
synchronous error, and afterwards the tracking metadata and the
derived value are exactly as they were before the attempted write. -/
theorem c3_computed_write_rejected (r : TrackedRecord) (c : String) (v : Val)
    (hc : (lookupA r.computed c).isSome = true) :
    (setProp r [c] v).thrown = true ∧
    (setProp r [c] v).state = r ∧
    (setProp r [c] v).state.meta.changes = r.meta.changes ∧
    readAttr (setProp r [c] v).state c = readAttr r c := by
  rw [setProp_computed r c v hc]
  exact ⟨rfl, rfl, rfl, rfl⟩

theorem constructed_eq (config : EntityConfig) (data : Fields) (now : Int)
    (r : TrackedRecord) (hok : entityConstructor config data now = .ok r) :
    r = { fields := wrapTopFields (removeKeys ((computedOf config).map Prod.fst)
            (spreadMerge (reservedFields config.name now) data))
          computed := computedOf config
          meta := { changes := [], attrDeps := buildDeps (computedOf config) } } := by
  simp only [entityConstructor] at hok
  split at hok
  · exact absurd hok (by simp)
  · rw [Except.ok.injEq] at hok
    exact hok.symm

/-- C5: calculateUpdateData on a freshly constructed tracked record
with no intervening mutations yields an empty patch: construction,
including the recursive wrapping and the definition of reserved and
computed attributes, records no entry in the changes map. -/
theorem c5_fresh_empty_patch (config : EntityConfig) (data : Fields) (now : Int)
    (r : TrackedRecord) (hok : entityConstructor config data now = .ok r) :
    r.meta.changes = [] ∧ calcUpdate r = ⟨[], []⟩ := by
  have hch : r.meta.changes = [] := by rw [constructed_eq config data now r hok]
  refine ⟨hch, ?_⟩
  unfold calcUpdate
  rw [hch]
  rfl

/-- C10: every successful property write is recorded even when the
assigned value is identical to the previous value: assigning a present
top-level attribute its own current value marks it Updated, and a
subsequent calculateUpdateData lists it in set although its value
never changed. -/
theorem c10_same_value_recorded (r : TrackedRecord) (a : String) (v : Val)
    (hc : lookupA r.computed a = none)
    (hv : v.isUndef = false)
    (hcur : lookupA r.fields a = some v)
    (hnd : (keysOf r.meta.changes).Nodup) :
    (setProp r [a] v).thrown = false ∧
    lookupA (setProp r [a] v).state.fields a = some v ∧
    lookupA (setProp r [a] v).state.meta.changes a = some ValueInfo.Updated ∧
    lookupA (calcUpdate (setProp r [a] v).state).set a = some v := by
  rw [setProp_top r a v hc]
  have hvi : (if v.isUndef && prevDefined r.fields a then ValueInfo.Removed
      else ValueInfo.Updated) = ValueInfo.Updated := by
    simp [hv]
  rw [hvi]
  refine ⟨rfl, ?_, ?_, ?_⟩
  · rw [recordChange_fields, lookupA_updAssoc_self]
  · rw [lookupA_recordChange]
    split
    · rfl
    · simp
  · rw [lookupA_calcUpdate_set _ (nodup_recordChange _ _ _ _ _ hnd)]
    have h1 : lookupA (recordChange r (updAssoc r.fields a v) a ValueInfo.Updated a).meta.changes a =
        some ValueInfo.Updated := by
      rw [lookupA_recordChange]
      split
      · rfl
      · simp
    have h2 : hasOwnB (recordChange r (updAssoc r.fields a v) a ValueInfo.Updated a) a = true := by
      unfold hasOwnB
      rw [recordChange_fields, lookupA_updAssoc_self]
      rfl
    rw [if_pos ⟨h1, h2⟩]
    unfold readAttr
    rw [recordChange_computed, hc, recordChange_fields, lookupA_updAssoc_self]
    rfl

theorem lookupA_recordChange_self_notdeps (r : TrackedRecord) (f2 : Fields)
    (k : String) (vi : ValueInfo) (p : String) (hk : k ∉ depsOf r.meta p) :
    lookupA (recordChange r f2 k vi p).meta.changes k = some vi := by
  rw [lookupA_recordChange, if_neg hk, if_pos rfl]

/-- C6: deleting a top-level attribute records that attribute as
Removed, so calculateUpdateData lists it in remove and keeps it out of
set; deleting a property inside a nested container records the
containing top-level attribute as Updated, so calculateUpdateData
reports that attribute in set with its full current nested value. -/
theorem c6_delete_semantics (r : TrackedRecord)
    (hnd : (keysOf r.meta.changes).Nodup) (hdc : DepsComputed r) :
    (∀ a, lookupA r.computed a = none →
      (deleteProp r [a]).thrown = false ∧
      lookupA (deleteProp r [a]).state.meta.changes a = some ValueInfo.Removed ∧
      a ∈ (calcUpdate (deleteProp r [a]).state).remove ∧
      lookupA (calcUpdate (deleteProp r [a]).state).set a = none) ∧
    (∀ top k2 rest cv cv2 prop, lookupA r.computed top = none →
      lookupA r.fields top = some cv →
      delNest cv (k2 :: rest) = some (cv2, some ⟨top, prop⟩) →
      (deleteProp r (top :: k2 :: rest)).thrown = false ∧
      lookupA (deleteProp r (top :: k2 :: rest)).state.meta.changes top =
        some ValueInfo.Updated ∧
      lookupA (calcUpdate (deleteProp r (top :: k2 :: rest)).state).set top = some cv2 ∧
      top ∉ (calcUpdate (deleteProp r (top :: k2 :: rest)).state).remove) := by
  constructor
  · intro a hc
    rw [deleteProp_top r a hc]
    have hch : lookupA (recordChange r (delAssoc r.fields a) a ValueInfo.Removed a).meta.changes a =
        some ValueInfo.Removed :=
      lookupA_recordChange_self_notdeps r _ a _ a (not_mem_depsOf hdc hc)
    refine ⟨rfl, hch, ?_, ?_⟩
    · rw [mem_calcUpdate_remove _ (nodup_recordChange _ _ _ _ _ hnd)]
      exact hch
    · rw [lookupA_calcUpdate_set _ (nodup_recordChange _ _ _ _ _ hnd)]
      rw [if_neg]
      intro hx
      rw [hch] at hx
      exact absurd (Option.some.inj hx.1) (by intro hh; cases hh)
  · intro top k2 rest cv cv2 prop hc hf hn
    rw [deleteProp_nested r top k2 rest cv cv2 _ hf hn]
    have hch : lookupA (recordChange r (updAssoc r.fields top cv2) top ValueInfo.Updated
        prop).meta.changes top = some ValueInfo.Updated := by
      rw [lookupA_recordChange]
      split
      · rfl
      · rw [if_pos rfl]
    refine ⟨rfl, hch, ?_, ?_⟩
    · rw [lookupA_calcUpdate_set _ (nodup_recordChange _ _ _ _ _ hnd)]
      have h2 : hasOwnB (recordChange r (updAssoc r.fields top cv2) top ValueInfo.Updated prop)
          top = true := by
        unfold hasOwnB
        rw [recordChange_fields, lookupA_updAssoc_self]
        rfl
      rw [if_pos ⟨hch, h2⟩]
      unfold readAttr
      rw [recordChange_computed, hc, recordChange_fields, lookupA_updAssoc_self]
      rfl
    · rw [mem_calcUpdate_remove _ (nodup_recordChange _ _ _ _ _ hnd), hch]
      intro hx
      exact absurd (Option.some.inj hx) (by intro hh; cases hh)

/-- C7: assigning undefined over a present value marks the top-level
owning attribute Removed rather than Updated: at the top level this
matches deletion (the attribute lands in remove and not in set), and
inside a nested container the containing top-level attribute (the
trap's captured parent key) is the one marked Removed. -/
theorem c7_undef_is_removal (r : TrackedRecord)
    (hnd : (keysOf r.meta.changes).Nodup) (hdc : DepsComputed r) :
    (∀ a w, lookupA r.computed a = none → lookupA r.fields a = some w →
      w.isUndef = false →
      (setProp r [a] Val.undef).thrown = false ∧
      lookupA (setProp r [a] Val.undef).state.meta.changes a = some ValueInfo.Removed ∧
      a ∈ (calcUpdate (setProp r [a] Val.undef).state).remove ∧
      lookupA (calcUpdate (setProp r [a] Val.undef).state).set a = none) ∧
    (∀ top k2 rest v cv cv2 pk prop,
      lookupA r.computed pk = none →
      lookupA r.fields top = some cv →
      setNest cv (k2 :: rest) v = some (cv2, some ⟨pk, prop, true⟩) →
      (setProp r (top :: k2 :: rest) v).thrown = false ∧
      lookupA (setProp r (top :: k2 :: rest) v).state.meta.changes pk =
        some ValueInfo.Removed ∧
      pk ∈ (calcUpdate (setProp r (top :: k2 :: rest) v).state).remove ∧
      lookupA (calcUpdate (setProp r (top :: k2 :: rest) v).state).set pk = none) := by
  constructor
  · intro a w hc hw hwu
    rw [setProp_top r a Val.undef hc]
    have hprev : (Val.undef.isUndef && prevDefined r.fields a) = true := by
      rw [show Val.undef.isUndef = true from rfl, Bool.true_and]
      unfold prevDefined
      rw [hw]
      simp [hwu]
    have hvi : (if Val.undef.isUndef && prevDefined r.fields a then ValueInfo.Removed
        else ValueInfo.Updated) = ValueInfo.Removed := by rw [hprev]; rfl
    rw [hvi]
    have hch : lookupA (recordChange r (updAssoc r.fields a Val.undef) a ValueInfo.Removed
        a).meta.changes a = some ValueInfo.Removed :=
      lookupA_recordChange_self_notdeps r _ a _ a (not_mem_depsOf hdc hc)
    refine ⟨rfl, hch, ?_, ?_⟩
    · rw [mem_calcUpdate_remove _ (nodup_recordChange _ _ _ _ _ hnd)]
      exact hch
    · rw [lookupA_calcUpdate_set _ (nodup_recordChange _ _ _ _ _ hnd)]
      rw [if_neg]
      intro hx
      rw [hch] at hx
      exact absurd (Option.some.inj hx.1) (by intro hh; cases hh)
  · intro top k2 rest v cv cv2 pk prop hc hf hn
    rw [setProp_nested r top k2 rest v cv cv2 _ hf hn]
    have hvi : (if ({ parentKey := pk, prop := prop, setUndef := true } : SetTrap).setUndef
        then ValueInfo.Removed else ValueInfo.Updated) = ValueInfo.Removed := rfl
    rw [hvi]
    have hch : lookupA (recordChange r (updAssoc r.fields top cv2) pk ValueInfo.Removed
        prop).meta.changes pk = some ValueInfo.Removed :=
      lookupA_recordChange_self_notdeps r _ pk _ prop (not_mem_depsOf hdc hc)
    refine ⟨rfl, hch, ?_, ?_⟩
    · rw [mem_calcUpdate_remove _ (nodup_recordChange _ _ _ _ _ hnd)]
      exact hch
    · rw [lookupA_calcUpdate_set _ (nodup_recordChange _ _ _ _ _ hnd)]
      rw [if_neg]
      intro hx
      rw [hch] at hx
      exact absurd (Option.some.inj hx.1) (by intro hh; cases hh)

/-- C8: the recorded status of a top-level attribute is determined by
the last mutation alone: delete-then-set ends Updated (the attribute
is reported in set with the final value and not in remove), and
set-then-delete ends Removed (reported in remove and not in set). -/
theorem c8_last_write_wins (r : TrackedRecord) (a : String) (v : Val)
    (hc : lookupA r.computed a = none) (hv : v.isUndef = false)
    (hnd : (keysOf r.meta.changes).Nodup) (hdc : DepsComputed r) :
    (lookupA (setProp (deleteProp r [a]).state [a] v).state.meta.changes a =
        some ValueInfo.Updated ∧
      lookupA (calcUpdate (setProp (deleteProp r [a]).state [a] v).state).set a = some v ∧
      a ∉ (calcUpdate (setProp (deleteProp r [a]).state [a] v).state).remove) ∧
    (lookupA (deleteProp (setProp r [a] v).state [a]).state.meta.changes a =
        some ValueInfo.Removed ∧
      a ∈ (calcUpdate (deleteProp (setProp r [a] v).state [a]).state).remove ∧
      lookupA (calcUpdate (deleteProp (setProp r [a] v).state [a]).state).set a = none) := by
  constructor
  · rw [deleteProp_top r a hc]
    have hc1 : lookupA (recordChange r (delAssoc r.fields a) a ValueInfo.Removed a).computed a =
        none := by rw [recordChange_computed]; exact hc
    rw [setProp_top _ a v hc1]
    have hvi : (if v.isUndef && prevDefined (recordChange r (delAssoc r.fields a) a
        ValueInfo.Removed a).fields a then ValueInfo.Removed else ValueInfo.Updated) =
        ValueInfo.Updated := by
      rw [hv, Bool.false_and]
      rfl
    rw [hvi]
    have hdc1 := depsComputed_recordChange (delAssoc r.fields a) a ValueInfo.Removed a hdc
    have hnd1 := nodup_recordChange r (delAssoc r.fields a) a ValueInfo.Removed a hnd
    have hch : lookupA (recordChange (recordChange r (delAssoc r.fields a) a ValueInfo.Removed a)
        (updAssoc (recordChange r (delAssoc r.fields a) a ValueInfo.Removed a).fields a v) a
        ValueInfo.Updated a).meta.changes a = some ValueInfo.Updated :=
      lookupA_recordChange_self_notdeps _ _ a _ a (not_mem_depsOf hdc1 hc1)
    have hnd2 := nodup_recordChange (recordChange r (delAssoc r.fields a) a ValueInfo.Removed a)
        (updAssoc (recordChange r (delAssoc r.fields a) a ValueInfo.Removed a).fields a v) a
        ValueInfo.Updated a hnd1
    refine ⟨hch, ?_, ?_⟩
    · rw [lookupA_calcUpdate_set _ hnd2]
      have h2 : hasOwnB (recordChange (recordChange r (delAssoc r.fields a) a ValueInfo.Removed a)
          (updAssoc (recordChange r (delAssoc r.fields a) a ValueInfo.Removed a).fields a v) a
          ValueInfo.Updated a) a = true := by
        unfold hasOwnB
        rw [recordChange_fields, lookupA_updAssoc_self]
        rfl
      rw [if_pos ⟨hch, h2⟩]
      unfold readAttr
      rw [recordChange_computed, hc1, recordChange_fields, lookupA_updAssoc_self]
      rfl
    · rw [mem_calcUpdate_remove _ hnd2, hch]
      intro hx
      exact absurd (Option.some.inj hx) (by intro hh; cases hh)
  · rw [setProp_top r a v hc]
    have hvi : (if v.isUndef && prevDefined r.fields a then ValueInfo.Removed
        else ValueInfo.Updated) = ValueInfo.Updated := by
      rw [hv, Bool.false_and]
      rfl
    rw [hvi]
    have hc1 : lookupA (recordChange r (updAssoc r.fields a v) a ValueInfo.Updated a).computed a =
        none := by rw [recordChange_computed]; exact hc
    rw [deleteProp_top _ a hc1]
    have hdc1 := depsComputed_recordChange (updAssoc r.fields a v) a ValueInfo.Updated a hdc
    have hnd1 := nodup_recordChange r (updAssoc r.fields a v) a ValueInfo.Updated a hnd
    have hch : lookupA (recordChange (recordChange r (updAssoc r.fields a v) a ValueInfo.Updated a)
        (delAssoc (recordChange r (updAssoc r.fields a v) a ValueInfo.Updated a).fields a) a
        ValueInfo.Removed a).meta.changes a = some ValueInfo.Removed :=
      lookupA_recordChange_self_notdeps _ _ a _ a (not_mem_depsOf hdc1 hc1)
    have hnd2 := nodup_recordChange (recordChange r (updAssoc r.fields a v) a ValueInfo.Updated a)
        (delAssoc (recordChange r (updAssoc r.fields a v) a ValueInfo.Updated a).fields a) a
        ValueInfo.Removed a hnd1
    refine ⟨hch, ?_, ?_⟩
    · rw [mem_calcUpdate_remove _ hnd2]
      exact hch
    · rw [lookupA_calcUpdate_set _ hnd2]
      rw [if_neg]
      intro hx
      rw [hch] at hx
      exact absurd (Option.some.inj hx.1) (by intro hh; cases hh)

/-- C2 (amended): dependency fan-out keys off the property name at
the mutation site.  For a direct top-level write of attribute a, and
likewise for a direct top-level delete of a, every computed attribute
in the bucket of a is marked Updated and reported in set with its
current derived value, and no other entry of changes moves (one level
only, never transitive).  For a mutation inside a nested container the
bucket consulted is that of the innermost property name, not of the
attributed top-level attribute. -/
theorem c2_amended_fanout (r : TrackedRecord)
    (hnd : (keysOf r.meta.changes).Nodup) (hdc : DepsComputed r) :
    (∀ a v, lookupA r.computed a = none → v.isUndef = false →
      (setProp r [a] v).thrown = false ∧
      lookupA (setProp r [a] v).state.meta.changes a = some ValueInfo.Updated ∧
      lookupA (calcUpdate (setProp r [a] v).state).set a = some v ∧
      (∀ c, c ∈ depsOf r.meta a →
        lookupA (setProp r [a] v).state.meta.changes c = some ValueInfo.Updated ∧
        lookupA (calcUpdate (setProp r [a] v).state).set c =
          some (readAttr (setProp r [a] v).state c)) ∧
      (∀ x, x ≠ a → x ∉ depsOf r.meta a →
        lookupA (setProp r [a] v).state.meta.changes x = lookupA r.meta.changes x)) ∧
    (∀ top k2 rest v cv cv2 pk prop s2u,
      lookupA r.fields top = some cv →
      setNest cv (k2 :: rest) v = some (cv2, some ⟨pk, prop, s2u⟩) →
      (∀ c, c ∈ depsOf r.meta prop →
        lookupA (setProp r (top :: k2 :: rest) v).state.meta.changes c =
          some ValueInfo.Updated) ∧
      (∀ x, x ≠ pk → x ∉ depsOf r.meta prop →
        lookupA (setProp r (top :: k2 :: rest) v).state.meta.changes x =
          lookupA r.meta.changes x)) ∧
    (∀ a, lookupA r.computed a = none →
      (deleteProp r [a]).thrown = false ∧
      (∀ c, c ∈ depsOf r.meta a →
        lookupA (deleteProp r [a]).state.meta.changes c = some ValueInfo.Updated ∧
        lookupA (calcUpdate (deleteProp r [a]).state).set c =
          some (readAttr (deleteProp r [a]).state c)) ∧
      (∀ x, x ≠ a → x ∉ depsOf r.meta a →
        lookupA (deleteProp r [a]).state.meta.changes x = lookupA r.meta.changes x)) := by
  refine ⟨?_, ?_, ?_⟩
  · intro a v hc hv
    rw [setProp_top r a v hc]
    have hvi : (if v.isUndef && prevDefined r.fields a then ValueInfo.Removed
        else ValueInfo.Updated) = ValueInfo.Updated := by
      rw [hv, Bool.false_and]
      rfl
    rw [hvi]
    have hch : lookupA (recordChange r (updAssoc r.fields a v) a ValueInfo.Updated
        a).meta.changes a = some ValueInfo.Updated := by
      rw [lookupA_recordChange]
      split
      · rfl
      · rw [if_pos rfl]
    have hnd2 := nodup_recordChange r (updAssoc r.fields a v) a ValueInfo.Updated a hnd
    refine ⟨rfl, hch, ?_, ?_, ?_⟩
    · rw [lookupA_calcUpdate_set _ hnd2]
      have h2 : hasOwnB (recordChange r (updAssoc r.fields a v) a ValueInfo.Updated a) a =
          true := by
        unfold hasOwnB
        rw [recordChange_fields, lookupA_updAssoc_self]
        rfl
      rw [if_pos ⟨hch, h2⟩]
      unfold readAttr
      rw [recordChange_computed, hc, recordChange_fields, lookupA_updAssoc_self]
      rfl
    · intro c hcdep
      have hchc : lookupA (recordChange r (updAssoc r.fields a v) a ValueInfo.Updated
          a).meta.changes c = some ValueInfo.Updated := by
        rw [lookupA_recordChange, if_pos hcdep]
      refine ⟨hchc, ?_⟩
      rw [lookupA_calcUpdate_set _ hnd2]
      have hcc := depsOf_computed hdc hcdep
      have h2 : hasOwnB (recordChange r (updAssoc r.fields a v) a ValueInfo.Updated a) c =
          true := by
        unfold hasOwnB
        rw [recordChange_computed, hcc, Bool.or_true]
      rw [if_pos ⟨hchc, h2⟩]
    · intro x hxa hxdep
      rw [lookupA_recordChange, if_neg hxdep, if_neg hxa]
  · intro top k2 rest v cv cv2 pk prop s2u hf hn
    rw [setProp_nested r top k2 rest v cv cv2 _ hf hn]
    constructor
    · intro c hcdep
      rw [lookupA_recordChange, if_pos hcdep]
    · intro x hxpk hxdep
      rw [lookupA_recordChange, if_neg hxdep, if_neg hxpk]
  · intro a hc
    rw [deleteProp_top r a hc]
    have hnd2 := nodup_recordChange r (delAssoc r.fields a) a ValueInfo.Removed a hnd
    refine ⟨rfl, ?_, ?_⟩
    · intro c hcdep
      have hchc : lookupA (recordChange r (delAssoc r.fields a) a ValueInfo.Removed
          a).meta.changes c = some ValueInfo.Updated := by
        rw [lookupA_recordChange, if_pos hcdep]
      refine ⟨hchc, ?_⟩
      rw [lookupA_calcUpdate_set _ hnd2]
      have hcc := depsOf_computed hdc hcdep
      have h2 : hasOwnB (recordChange r (delAssoc r.fields a) a ValueInfo.Removed a) c =
          true := by
        unfold hasOwnB
        rw [recordChange_computed, hcc, Bool.or_true]
      rw [if_pos ⟨hchc, h2⟩]
    · intro x hxa hxdep
      rw [lookupA_recordChange, if_neg hxdep, if_neg hxa]

theorem lookupA_wrapTopFields (fs : Fields) (k : String) :
    lookupA (wrapTopFields fs) k =
      (lookupA fs k).map (fun v => if isWrappableInObj v then wrapProxy k v else v) := by
  induction fs with
  | nil => rfl
  | cons p rest ih =>
      obtain ⟨k1, v1⟩ := p
      by_cases h : k1 = k
      · subst h
        simp [wrapTopFields, lookupA]
      · simp [wrapTopFields, lookupA, h, ih]

theorem lookupA_removeKeys (ks : List String) (fs : Fields) (k : String) :
    lookupA (removeKeys ks fs) k = if k ∈ ks then none else lookupA fs k := by
  induction fs with
  | nil => simp [removeKeys, lookupA]
  | cons p rest ih =>
      obtain ⟨k1, v1⟩ := p
      by_cases h1 : k1 ∈ ks
      · rw [removeKeys, if_pos h1, ih]
        by_cases h2 : k ∈ ks
        · simp [h2]
        · have hne : k1 ≠ k := fun hh => h2 (hh ▸ h1)
          simp [h2, lookupA, hne]
      · rw [removeKeys, if_neg h1]
        by_cases h2 : k1 = k
        · subst h2
          have h3 : k1 ∉ ks := h1
          simp [lookupA, h3]
        · simp [lookupA, h2, ih]

theorem lookupA_spreadMerge_created (name : String) (now : Int) (data : Fields) :
    lookupA (spreadMerge (reservedFields name now) data) "_created" =
      some ((lookupA data "_created").getD (Val.date now)) := by
  simp [spreadMerge, reservedFields, lookupA]

theorem lookupA_spreadMerge_updated (name : String) (now : Int) (data : Fields) :
    lookupA (spreadMerge (reservedFields name now) data) "_updated" =
      some ((lookupA data "_updated").getD (Val.date now)) := by
  simp [spreadMerge, reservedFields, lookupA]

theorem lookupA_spreadMerge_type (name : String) (now : Int) (data : Fields) :
    lookupA (spreadMerge (reservedFields name now) data) "_type" =
      some ((lookupA data "_type").getD (Val.str name)) := by
  simp [spreadMerge, reservedFields, lookupA]

theorem constructed_lookup_of_merged (config : EntityConfig) (data : Fields) (now : Int)
    (r : TrackedRecord) (hok : entityConstructor config data now = .ok r)
    (k : String) (hnc : k ∉ (computedOf config).map Prod.fst) :
    lookupA r.fields k =
      (lookupA (spreadMerge (reservedFields config.name now) data) k).map
        (fun v => if isWrappableInObj v then wrapProxy k v else v) := by
  rw [constructed_eq config data now r hok]
  show lookupA (wrapTopFields (removeKeys ((computedOf config).map Prod.fst)
      (spreadMerge (reservedFields config.name now) data))) k = _
  rw [lookupA_wrapTopFields, lookupA_removeKeys, if_neg hnc]

/-- C1 (amended): the entity constructor synthesizes the reserved
attributes only as defaults: the target literal spreads the caller
data last, so when the caller omits a reserved attribute the record
carries the fresh timestamp or the schema name, but a caller-supplied
value for a reserved attribute overwrites the synthesized one. -/
theorem c1_amended_merge_order (config : EntityConfig) (data : Fields) (now : Int)
    (r : TrackedRecord) (hok : entityConstructor config data now = .ok r)
    (h1 : "_created" ∉ (computedOf config).map Prod.fst)
    (h2 : "_updated" ∉ (computedOf config).map Prod.fst)
    (h3 : "_type" ∉ (computedOf config).map Prod.fst) :
    (lookupA data "_created" = none → lookupA r.fields "_created" = some (Val.date now)) ∧
    (lookupA data "_updated" = none → lookupA r.fields "_updated" = some (Val.date now)) ∧
    (lookupA data "_type" = none → lookupA r.fields "_type" = some (Val.str config.name)) ∧
    (∀ v, lookupA data "_created" = some v →
      lookupA r.fields "_created" =
        some (if isWrappableInObj v then wrapProxy "_created" v else v)) ∧
    (∀ v, lookupA data "_updated" = some v →
      lookupA r.fields "_updated" =
        some (if isWrappableInObj v then wrapProxy "_updated" v else v)) ∧
    (∀ v, lookupA data "_type" = some v →
      lookupA r.fields "_type" =
        some (if isWrappableInObj v then wrapProxy "_type" v else v)) := by
  refine ⟨?_, ?_, ?_, ?_, ?_, ?_⟩
  · intro hd
    rw [constructed_lookup_of_merged config data now r hok _ h1,
      lookupA_spreadMerge_created, hd]
    rfl
  · intro hd
    rw [constructed_lookup_of_merged config data now r hok _ h2,
      lookupA_spreadMerge_updated, hd]
    rfl
  · intro hd
    rw [constructed_lookup_of_merged config data now r hok _ h3,
      lookupA_spreadMerge_type, hd]
    rfl
  · intro v hd
    rw [constructed_lookup_of_merged config data now r hok _ h1,
      lookupA_spreadMerge_created, hd]
    rfl
  · intro v hd
    rw [constructed_lookup_of_merged config data now r hok _ h2,
      lookupA_spreadMerge_updated, hd]
    rfl
  · intro v hd
    rw [constructed_lookup_of_merged config data now r hok _ h3,
      lookupA_spreadMerge_type, hd]
    rfl

theorem applyMut_ref (w : World) (r : WRecord) (m : Mut) :
    ((applyMut w r m).2).ref = r.ref := by
  cases m <;> rfl

theorem getMeta_putMeta_ne (w : World) (i j : Nat) (m : EntityMetada) (h : j ≠ i) :
    getMeta (putMeta w i m) j = getMeta w j := by
  induction w generalizing i j with
  | nil => rfl
  | cons x rest ih =>
      cases i with
      | zero =>
          cases j with
          | zero => exact absurd rfl h
          | succ j2 => rfl
      | succ i2 =>
          cases j with
          | zero => rfl
          | succ j2 =>
              show getMeta (putMeta rest i2 m) j2 = getMeta rest j2
              exact ih i2 j2 (fun hh => h (by rw [hh]))

theorem applyMut_frame (w : World) (r : WRecord) (m : Mut) (j : Nat) (h : j ≠ r.ref) :
    getMeta (applyMut w r m).1 j = getMeta w j := by
  cases m <;> exact getMeta_putMeta_ne _ _ _ _ h

theorem applyMuts_frame (muts : List Mut) (w : World) (r : WRecord) (j : Nat)
    (h : j ≠ r.ref) :
    getMeta (applyMuts w r muts).1 j = getMeta w j := by
  induction muts generalizing w r with
  | nil => rfl
  | cons m rest ih =>
      show getMeta (applyMuts (applyMut w r m).1 (applyMut w r m).2 rest).1 j = getMeta w j
      rw [ih (applyMut w r m).1 (applyMut w r m).2 (by rw [applyMut_ref]; exact h)]
      exact applyMut_frame w r m j h

/-- C9: each record built by an entity constructor holds tracking
metadata allocated fresh at its construction, so any sequence of
mutations applied to either one of two constructed records leaves the
other record's metadata and calculateUpdateData output unchanged, in
both directions: mutating the first-built record does not affect the
second, and mutating the second-built record does not affect the
first. -/
theorem c9_isolation (cf1 cf2 : EntityConfig) (d1 d2 : Fields) (n1 n2 : Int)
    (w1 w2 : World) (r1 r2 : WRecord) (muts : List Mut)
    (h1 : wConstruct cf1 d1 n1 [] = .ok (w1, r1))
    (h2 : wConstruct cf2 d2 n2 w1 = .ok (w2, r2)) :
    r1.ref ≠ r2.ref ∧
    toTR (applyMuts w2 r1 muts).1 r2 = toTR w2 r2 ∧
    calcUpdate (toTR (applyMuts w2 r1 muts).1 r2) = calcUpdate (toTR w2 r2) ∧
    toTR (applyMuts w2 r2 muts).1 r1 = toTR w2 r1 ∧
    calcUpdate (toTR (applyMuts w2 r2 muts).1 r1) = calcUpdate (toTR w2 r1) := by
  have e1 : r1.ref = 0 := by
    unfold wConstruct at h1
    cases hE : entityConstructor cf1 d1 n1 with
    | error e => rw [hE] at h1; exact absurd h1 (by simp)
    | ok rr =>
        rw [hE] at h1
        rw [Except.ok.injEq, Prod.mk.injEq] at h1
        rw [← h1.2]
        rfl
  have e2 : r2.ref = w1.length := by
    unfold wConstruct at h2
    cases hE : entityConstructor cf2 d2 n2 with
    | error e => rw [hE] at h2; exact absurd h2 (by simp)
    | ok rr =>
        rw [hE] at h2
        rw [Except.ok.injEq, Prod.mk.injEq] at h2
        rw [← h2.2]
  have ew1 : w1.length = 1 := by
    unfold wConstruct at h1
    cases hE : entityConstructor cf1 d1 n1 with
    | error e => rw [hE] at h1; exact absurd h1 (by simp)
    | ok rr =>
        rw [hE] at h1
        rw [Except.ok.injEq, Prod.mk.injEq] at h1
        rw [← h1.1]
        rfl
  have hne : r1.ref ≠ r2.ref := by
    rw [e1, e2, ew1]
    intro hh
    cases hh
  have htr : toTR (applyMuts w2 r1 muts).1 r2 = toTR w2 r2 := by
    unfold toTR
    rw [applyMuts_frame muts w2 r1 r2.ref (fun hh => hne hh.symm)]
  have htr2 : toTR (applyMuts w2 r2 muts).1 r1 = toTR w2 r1 := by
    unfold toTR
    rw [applyMuts_frame muts w2 r2 r1.ref hne]
  exact ⟨hne, htr, by rw [htr], htr2, by rw [htr2]⟩

/-- C1 counterexample: with caller-supplied reserved attributes the
constructed record keeps the caller's values, not the synthesized
fresh timestamp and schema name, refuting the claim that synthesized
values overwrite caller-supplied ones. -/
theorem c1_counterexample :
    entityConstructor c1cfg c1data 0 = .ok c1rec ∧
    lookupA c1rec.fields "_created" = some (.str "HACK") ∧
    lookupA c1rec.fields "_type" = some (.str "EVIL") ∧
    lookupA c1rec.fields "_created" ≠ some (.date 0) ∧
    lookupA c1rec.fields "_type" ≠ some (.str "T") := by
  refine ⟨rfl, rfl, rfl, ?_, ?_⟩
  · intro h
    rw [show lookupA c1rec.fields "_created" = some (.str "HACK") from rfl] at h
    exact Val.noConfusion (Option.some.inj h)
  · intro h
    rw [show lookupA c1rec.fields "_type" = some (.str "EVIL") from rfl] at h
    exact absurd (Val.str.inj (Option.some.inj h)) (by decide)

/-- C1 witness: the amended claim instantiated at a record whose
data supplies _created and _type but omits _updated. -/
theorem c1_witness :
    lookupA c1rec.fields "_created" = some (.str "HACK") ∧
    lookupA c1rec.fields "_type" = some (.str "EVIL") ∧
    lookupA c1rec.fields "_updated" = some (.date 0) := by
  have h := c1_amended_merge_order c1cfg c1data 0 c1rec rfl
      (by decide) (by decide) (by decide)
  exact ⟨h.2.2.2.1 (.str "HACK") rfl, h.2.2.2.2.2 (.str "EVIL") rfl, h.2.1 rfl⟩

/-- C2 counterexample: a computed attribute cpk depends on address;
mutating address.city records address as Updated, yet cpk is not
marked and is absent from set, refuting the claim for mutations inside
nested containers attributed to the dependency source. -/
theorem c2_counterexample :
    entityConstructor c2cfg c2data 0 = .ok c2rec ∧
    lookupA c2rec.meta.attrDeps "address" = some ["cpk"] ∧
    c2mut.thrown = false ∧
    lookupA c2mut.state.meta.changes "address" = some ValueInfo.Updated ∧
    lookupA c2mut.state.meta.changes "cpk" = none ∧
    lookupA (calcUpdate c2mut.state).set "address" =
      some (.obj (some "address") [("city", .str "Belem")]) ∧
    lookupA (calcUpdate c2mut.state).set "cpk" = none :=
  ⟨rfl, rfl, rfl, rfl, rfl, rfl, rfl⟩

/-- C2 witness: the amended claim instantiated at a direct top-level
write of login, with computed pk depending on login. -/
theorem c2_witness :
    lookupA (setProp demoRec ["login"] (.str "kucyk")).state.meta.changes "pk" =
      some ValueInfo.Updated ∧
    lookupA (calcUpdate (setProp demoRec ["login"] (.str "kucyk")).state).set "pk" =
      some (.str "TEST#kucyk") ∧
    lookupA (deleteProp demoRec ["login"]).state.meta.changes "pk" =
      some ValueInfo.Updated ∧
    lookupA (calcUpdate (deleteProp demoRec ["login"]).state).set "pk" =
      some Val.undef := by
  have h := ((c2_amended_fanout demoRec (by decide) (by decide)).1 "login"
      (.str "kucyk") rfl rfl).2.2.2.1 "pk" (by decide)
  have hd := (((c2_amended_fanout demoRec (by decide) (by decide)).2.2 "login"
      rfl).2.1) "pk" (by decide)
  exact ⟨h.1, h.2, hd.1, hd.2⟩

/-- C3 witness: writes to the built-in _ttl and the schema computed
pk on a concrete record both throw and leave the record unchanged. -/
theorem c3_witness :
    (setProp demoRec ["_ttl"] (.num 5)).thrown = true ∧
    (setProp demoRec ["_ttl"] (.num 5)).state = demoRec ∧
    (setProp demoRec ["pk"] (.str "x")).thrown = true ∧
    (setProp demoRec ["pk"] (.str "x")).state = demoRec :=
  ⟨(c3_computed_write_rejected demoRec "_ttl" (.num 5) rfl).1,
   (c3_computed_write_rejected demoRec "_ttl" (.num 5) rfl).2.1,
   (c3_computed_write_rejected demoRec "pk" (.str "x") rfl).1,
   (c3_computed_write_rejected demoRec "pk" (.str "x") rfl).2.1⟩

/-- C5 witness: a freshly constructed concrete record has an empty
changes map and an empty patch. -/
theorem c5_witness : demoRec.meta.changes = [] ∧ calcUpdate demoRec = ⟨[], []⟩ :=
  c5_fresh_empty_patch demoCfg demoData 5 demoRec rfl

/-- C6 witness: deleting top-level name and nested address.city on a
concrete record. -/
theorem c6_witness :
    "name" ∈ (calcUpdate (deleteProp demoRec ["name"]).state).remove ∧
    lookupA (calcUpdate (deleteProp demoRec ["name"]).state).set "name" = none ∧
    lookupA (calcUpdate (deleteProp demoRec ["address", "city"]).state).set "address" =
      some (.obj (some "address") [("street", .str "Avenida")]) ∧
    "address" ∉ (calcUpdate (deleteProp demoRec ["address", "city"]).state).remove := by
  have h := c6_delete_semantics demoRec (by decide) (by decide)
  have p1 := h.1 "name" rfl
  have p2 := h.2 "address" "city" [] (Val.obj (some "address")
      [("city", Val.str "Lisbon"), ("street", Val.str "Avenida")])
      (Val.obj (some "address") [("street", Val.str "Avenida")]) "city" rfl rfl rfl
  exact ⟨p1.2.2.1, p1.2.2.2, p2.2.2.1, p2.2.2.2⟩

/-- C7 witness: assigning undefined to top-level name and to nested
address.city on a concrete record. -/
theorem c7_witness :
    lookupA (setProp demoRec ["name"] Val.undef).state.meta.changes "name" =
      some ValueInfo.Removed ∧
    "name" ∈ (calcUpdate (setProp demoRec ["name"] Val.undef).state).remove ∧
    lookupA (calcUpdate (setProp demoRec ["name"] Val.undef).state).set "name" = none ∧
    lookupA (setProp demoRec ["address", "city"] Val.undef).state.meta.changes "address" =
      some ValueInfo.Removed ∧
    "address" ∈ (calcUpdate (setProp demoRec ["address", "city"] Val.undef).state).remove := by
  have h := c7_undef_is_removal demoRec (by decide) (by decide)
  have p1 := h.1 "name" (.str "Damian") rfl rfl rfl
  have p2 := h.2 "address" "city" [] Val.undef (Val.obj (some "address")
      [("city", Val.str "Lisbon"), ("street", Val.str "Avenida")])
      (Val.obj (some "address") [("city", Val.undef), ("street", Val.str "Avenida")])
      "address" "city" rfl rfl rfl
  exact ⟨p1.2.1, p1.2.2.1, p1.2.2.2, p2.2.1, p2.2.2.1⟩

/-- C8 witness: delete-then-set and set-then-delete of name on a
concrete record. -/
theorem c8_witness :
    lookupA (setProp (deleteProp demoRec ["name"]).state ["name"]
        (.str "Gucio")).state.meta.changes "name" = some ValueInfo.Updated ∧
    lookupA (calcUpdate (setProp (deleteProp demoRec ["name"]).state ["name"]
        (.str "Gucio")).state).set "name" = some (.str "Gucio") ∧
    "name" ∉ (calcUpdate (setProp (deleteProp demoRec ["name"]).state ["name"]
        (.str "Gucio")).state).remove ∧
    "name" ∈ (calcUpdate (deleteProp (setProp demoRec ["name"]
        (.str "Gucio")).state ["name"]).state).remove ∧
    lookupA (calcUpdate (deleteProp (setProp demoRec ["name"]
        (.str "Gucio")).state ["name"]).state).set "name" = none := by
  have h := c8_last_write_wins demoRec "name" (.str "Gucio") rfl rfl (by decide) (by decide)
  exact ⟨h.1.1, h.1.2.1, h.1.2.2, h.2.2.1, h.2.2.2⟩

/-- C9 witness: two records allocated in sequence; mutating the
first leaves the second's patch unchanged. -/
theorem c9_witness :
    c9pair1.2.ref ≠ c9pair2.2.ref ∧
    calcUpdate (toTR (applyMuts c9pair2.1 c9pair1.2 [Mut.setm ["a"] (.num 2)]).1 c9pair2.2) =
      calcUpdate (toTR c9pair2.1 c9pair2.2) ∧
    calcUpdate (toTR (applyMuts c9pair2.1 c9pair2.2 [Mut.setm ["b"] (.num 9)]).1 c9pair1.2) =
      calcUpdate (toTR c9pair2.1 c9pair1.2) := by
  have h := c9_isolation c9cfgA c9cfgB c9d1 c9d2 0 0 c9pair1.1 c9pair2.1 c9pair1.2 c9pair2.2
      [Mut.setm ["a"] (.num 2)] rfl rfl
  have h2 := c9_isolation c9cfgA c9cfgB c9d1 c9d2 0 0 c9pair1.1 c9pair2.1 c9pair1.2 c9pair2.2
      [Mut.setm ["b"] (.num 9)] rfl rfl
  exact ⟨h.1, h.2.2.1, h2.2.2.2.2⟩

/-- C10 witness: reassigning name its current value on a concrete
record marks it Updated and reports it in set. -/
theorem c10_witness :
    lookupA (setProp demoRec ["name"] (.str "Damian")).state.meta.changes "name" =
      some ValueInfo.Updated ∧
    lookupA (calcUpdate (setProp demoRec ["name"] (.str "Damian")).state).set "name" =
      some (.str "Damian") := by
  have h := c10_same_value_recorded demoRec "name" (.str "Damian") rfl rfl rfl (by decide)
  exact ⟨h.2.2.1, h.2.2.2⟩


end DynORM
